import Mathlib

/-!
Verification development for the activity-search view layer of the
annotation platform repository.  The module under test, h/views/activity.py,
is not shipped in this source snapshot (only its test suite is), so every
definition below is a shallow embedding reconstructed from the written
specification and pinned by the behaviours asserted in the test suite.
Machine strings are embedded as Lean String / List Char; the stateful view
functions are embedded as pure functions from an explicit request and an
explicit environment of external collaborators to a result paired with a
list of emitted external effects.
-/

namespace Activity

/-- Modelled from the spec: a parsed query term is either opaque free text
or a structured facet token "key:value".  Values are stored unquoted. -/
inductive Term where
  | freeText (text : List Char) : Term
  | facet (key value : List Char) : Term
deriving DecidableEq

/-- The characters of the "user" facet key. -/
def userKey : List Char := ['u', 's', 'e', 'r']

/-- Modelled from the spec: the fixed, case-sensitive facet-key vocabulary
known to the tokenizer (at minimum "user"). -/
def knownKeys : List (List Char) := [userKey]

/-- Modelled from the spec: the tokenizer splits the input on whitespace
outside of double-quoted spans.  `inQ` tracks whether the scan is inside a
quoted span and `cur` accumulates the current token in reverse. -/
def tokenizeAux : List Char → Bool → List Char → List (List Char)
  | [], _, cur => if cur = [] then [] else [cur.reverse]
  | c :: rest, inQ, cur =>
    if c.isWhitespace && !inQ then
      if cur = [] then tokenizeAux rest inQ []
      else cur.reverse :: tokenizeAux rest inQ []
    else
      tokenizeAux rest (if c = '"' then !inQ else inQ) (c :: cur)

/-- Modelled from the spec: split a raw query into whitespace-separated
tokens, where whitespace inside double quotes does not split. -/
def tokenize (s : List Char) : List (List Char) := tokenizeAux s false []

/-- `stripLead p t = some r` exactly when `t = p ++ r`; used to test a token
for a known "key:" lead. -/
def stripLead : List Char → List Char → Option (List Char)
  | [], t => some t
  | _ :: _, [] => none
  | p :: ps, c :: cs => if c = p then stripLead ps cs else none

/-- Modelled from the spec: a facet value surrounded by double quotes has
the quotes stripped when parsed; anything else is kept verbatim. -/
def stripQuotes (v : List Char) : List Char :=
  match v with
  | [] => []
  | c :: rest =>
    if c = '"' ∧ rest.getLast? = some '"' then rest.dropLast else c :: rest

/-- Scan the known-key vocabulary for one whose "key:" form leads the
token, returning the key and the raw (still quoted) value. -/
def findFacet : List (List Char) → List Char → Option (List Char × List Char)
  | [], _ => none
  | k :: ks, t =>
    match stripLead (k ++ [':']) t with
    | some v => some (k, v)
    | none => findFacet ks t

/-- Modelled from the spec: a token of the form "knownKey:value" becomes a
facet (quotes stripped from the value); any other token is free text. -/
def parseToken (t : List Char) : Term :=
  match findFacet knownKeys t with
  | some (k, v) => Term.facet k (stripQuotes v)
  | none => Term.freeText t

/-- Parse a raw character list into the ordered term sequence. -/
def parseList (s : List Char) : List Term := (tokenize s).map parseToken

/-- Modelled from the spec: parse a raw query string into terms. -/
def parse (s : String) : List Term := parseList s.toList

/-- Modelled from the spec: a facet value is wrapped in double quotes on
output exactly when it contains whitespace. -/
def serializeValue (v : List Char) : List Char :=
  if v.any Char.isWhitespace then '"' :: v ++ ['"'] else v

/-- Modelled from the spec: serialize one term back to its token text. -/
def serializeTerm : Term → List Char
  | Term.freeText t => t
  | Term.facet k v => k ++ ':' :: serializeValue v

/-- Join tokens with single spaces; the empty sequence gives the empty
text, never a stray space. -/
def joinSpace : List (List Char) → List Char
  | [] => []
  | [t] => t
  | t :: u :: rest => t ++ ' ' :: joinSpace (u :: rest)

/-- Serialize a term sequence to canonical text. -/
def serializeTerms (q : List Term) : List Char := joinSpace (q.map serializeTerm)

/-- Modelled from the spec: serialize a term sequence to a query string. -/
def serialize (q : List Term) : String := String.mk (serializeTerms q)

/-- Modelled from the spec: remove the first term equal to the given facet,
leaving every other term untouched and in order. -/
def removeFirst : List Term → List Char → List Char → List Term
  | [], _, _ => []
  | t :: rest, k, v =>
    if t = Term.facet k v then rest else t :: removeFirst rest k v

/-- Modelled from the spec: the toggle engine at the term level — remove
the first exactly-matching facet if present, else append it at the end. -/
def toggleTerms (q : List Term) (k v : List Char) : List Term :=
  if Term.facet k v ∈ q then removeFirst q k v else q ++ [Term.facet k v]

/-- Modelled from the spec: Toggle(text, key, value) — parse, toggle the
facet at the term level, re-serialize. -/
def toggle (text key value : String) : String :=
  String.mk (serializeTerms (toggleTerms (parseList text.toList) key.toList value.toList))

/-- Modelled from the spec: the fixed default page-size constant. -/
def PAGE_SIZE : Nat := 20

/-- Digit-string accumulator for integer parsing. -/
def digitsVal : List Char → Nat → Option Nat
  | [], acc => some acc
  | c :: rest, acc =>
    if c.isDigit then digitsVal rest (acc * 10 + (c.toNat - 48)) else none

/-- Parse a nonempty all-digit character list as a natural number. -/
def parseDigits (l : List Char) : Option Nat :=
  match l with
  | [] => none
  | _ => digitsVal l 0

/-- Modelled from the spec: parse a raw parameter as an integer (optional
sign followed by digits); any other shape fails. -/
def parseInt (s : String) : Option Int :=
  match s.toList with
  | '-' :: rest => (parseDigits rest).map (fun n => -(n : Int))
  | '+' :: rest => (parseDigits rest).map (fun n => (n : Int))
  | l => (parseDigits l).map (fun n => (n : Int))

/-- Modelled from the spec: page-size resolution — a raw parameter that
parses as a positive integer is used; parse failure, a non-positive value,
or an absent parameter silently falls back to the default constant. -/
def resolvePageSize : Option String → Nat
  | none => PAGE_SIZE
  | some s =>
    match parseInt s with
    | some n => if 0 < n then n.toNat else PAGE_SIZE
    | none => PAGE_SIZE

/-- Modelled from the spec: the local part of an "acct:name@domain"
account identifier — drop the "acct:" lead, take up to the first at sign. -/
def localPart (l : List Char) : List Char :=
  (l.drop 5).takeWhile (fun c => c ≠ '@')

/-- Modelled from the spec: display username extracted from a full account
identifier. -/
def username (userid : String) : String := String.mk (localPart userid.toList)

/-- Modelled from the spec: a reshaped users-aggregation bucket carrying
both the full identifier and the extracted username. -/
structure UserBucket where
  userid : String
  username : String
deriving DecidableEq

/-- Modelled from the spec: aggregations as returned by the search
collaborator; the users aggregation may be absent, and each of its buckets
carries the raw account identifier.  Other aggregations pass through. -/
structure AggsIn where
  users : Option (List String)
  other : List (String × String)
deriving DecidableEq

/-- Modelled from the spec: aggregations as handed to the presentation
layer; absent users stays absent (no empty list is synthesized). -/
structure AggsOut where
  users : Option (List UserBucket)
  other : List (String × String)
deriving DecidableEq

/-- Modelled from the spec: the users aggregation, when present, is mapped
bucket-by-bucket (order preserved) to userid plus username pairs. -/
def reshapeAggs (a : AggsIn) : AggsOut :=
  { users := a.users.map (fun bs => bs.map (fun u => ⟨u, username u⟩))
  , other := a.other }

/-- Modelled from the spec: the raw search-collaborator result. -/
structure SearchResult where
  total : Nat
  aggregations : AggsIn
deriving DecidableEq

/-- Modelled from the spec: page metadata computed from the result total
and the effective page size; a zero total still yields one (empty) page. -/
structure PageMeta where
  pageSize : Nat
  totalPages : Nat
deriving DecidableEq

/-- Modelled from the spec: pagination as a pure function of two naturals. -/
def paginate (total pageSize : Nat) : PageMeta :=
  { pageSize := pageSize
  , totalPages := if total = 0 then 1 else (total + pageSize - 1) / pageSize }

/-- Modelled from the spec: group metadata attached to a scoped response,
with the creation timestamp already formatted as month and year. -/
structure GroupInfo where
  pubid : String
  name : String
  description : String
  created : String
deriving DecidableEq

/-- Modelled from the spec: a group record held by the external membership
service; the creation timestamp is kept as month (1..12) and year. -/
structure Group where
  pubid : String
  name : String
  description : String
  creator : String
  members : List String
  createdMonth : Nat
  createdYear : Nat
deriving DecidableEq

/-- English month name for the strftime directive B (1..12). -/
def monthName : Nat → String
  | 1 => "January" | 2 => "February" | 3 => "March" | 4 => "April"
  | 5 => "May" | 6 => "June" | 7 => "July" | 8 => "August"
  | 9 => "September" | 10 => "October" | 11 => "November" | 12 => "December"
  | _ => ""

/-- Modelled from the spec: created timestamp rendered with the strftime
format string "%B, %Y" — full month name, comma, space, year. -/
def formatMonthYear (month year : Nat) : String :=
  monthName month ++ ", " ++ toString year

/-- Modelled from the spec: the full search-page response shape handed to
the presentation layer. -/
structure SearchResponse where
  aggregations : AggsOut
  pageMeta : PageMeta
  moreInfo : Bool
  group : Option GroupInfo
  groupEditUrl : Option String
deriving DecidableEq

/-- Failure conditions a view can signal to the framework. -/
inductive Err where
  | notFound : Err
  | internal : Err
deriving DecidableEq

deriving instance DecidableEq for Except

/-- External side effects a view can emit, recorded as data. -/
inductive Effect where
  | searchExecuted (pageSize : Nat) : Effect
  | permissionChecked (action : String) (group : Group) : Effect
  | memberLeave (pubid : String) (userid : Option String) : Effect
deriving DecidableEq

/-- Modelled from the spec: the request-scoped inputs of one view call. -/
structure Request where
  featureSearchPage : Bool
  params : List (String × String)
  post : List (String × String)
  matchdictPubid : Option String
  authenticatedUser : Option String

/-- First-match lookup in a parameter multidict. -/
def lookupParam (ps : List (String × String)) (k : String) : Option String :=
  (ps.find? (fun p => p.fst = k)).map (fun p => p.snd)

/-- Modelled from the spec: the external collaborators of the pipeline —
group resolution, the permission predicate and the search engine. -/
structure Env where
  lookupGroup : String → Option Group
  hasPermission : String → Group → Bool
  executeSearch : List Term → Nat → SearchResult

/-- Modelled from the spec: the unscoped search view — feature gate first,
then page-size resolution, query extraction, search execution, pagination
and aggregation reshaping.  The emitted effect records the page size the
search collaborator was invoked with. -/
def search (req : Request) (env : Env) : Except Err SearchResponse × List Effect :=
  if req.featureSearchPage = false then (Except.error Err.notFound, [])
  else
    let pageSize := resolvePageSize (lookupParam req.params "page_size")
    let q := (lookupParam req.params "q").getD ""
    let result := env.executeSearch (parse q) pageSize
    (Except.ok
      { aggregations := reshapeAggs result.aggregations
      , pageMeta := paginate result.total pageSize
      , moreInfo := false
      , group := none
      , groupEditUrl := none },
     [Effect.searchExecuted pageSize])

/-- The test-host route for editing a group. -/
def groupEditUrl (pubid : String) : String :=
  "http://example.com/groups/" ++ pubid ++ "/edit"

/-- The test-host route for the group-scoped search page. -/
def groupSearchUrl (pubid : String) : String :=
  "http://example.com/groups/" ++ pubid ++ "/search"

/-- Modelled from the spec: the group-scoped search view — feature gate,
then the unscoped search; an unresolvable pubid, a missing user, or a user
who is neither member nor creator falls back silently to the unscoped
result; otherwise the response is enriched with group metadata, the
admin-permission edit link, and the more-info flag. -/
def group_search (req : Request) (env : Env) : Except Err SearchResponse × List Effect :=
  if req.featureSearchPage = false then (Except.error Err.notFound, [])
  else
    match search req env with
    | (Except.error e, eff) => (Except.error e, eff)
    | (Except.ok base, eff) =>
      match req.matchdictPubid.bind env.lookupGroup with
      | none => (Except.ok base, eff)
      | some g =>
        match req.authenticatedUser with
        | none => (Except.ok base, eff)
        | some u =>
          if u ∈ g.members ∨ u = g.creator then
            (Except.ok
              { base with
                group := some
                  { pubid := g.pubid
                  , name := g.name
                  , description := g.description
                  , created := formatMonthYear g.createdMonth g.createdYear }
                , groupEditUrl :=
                    if env.hasPermission "admin" g then some (groupEditUrl g.pubid)
                    else none
                , moreInfo := (lookupParam req.params "more_info").isSome },
             eff ++ [Effect.permissionChecked "admin" g])
          else (Except.ok base, eff)

/-- Percent-encoding hex digit (uppercase). -/
def hexDigit (n : Nat) : Char :=
  if n < 10 then Char.ofNat (48 + n) else Char.ofNat (55 + n)

/-- Modelled from the spec: standard URL query-encoding of one character —
alphanumerics and safe punctuation verbatim, space as plus, anything else
percent-encoded. -/
def encodeChar (c : Char) : List Char :=
  if c.isAlphanum || c = '-' || c = '_' || c = '.' then [c]
  else if c = ' ' then ['+']
  else ['%', hexDigit (c.toNat / 16 % 16), hexDigit (c.toNat % 16)]

/-- Encode every character of a value. -/
def encodeList : List Char → List Char
  | [] => []
  | c :: rest => encodeChar c ++ encodeList rest

/-- Modelled from the spec: URL query-encoding of a parameter value. -/
def urlencode (s : String) : String := String.mk (encodeList s.toList)

/-- Join rendered key=value pairs with ampersands. -/
def joinAmp : List String → String
  | [] => ""
  | [p] => p
  | p :: q :: rest => p ++ "&" ++ joinAmp (q :: rest)

/-- Modelled from the spec: a redirect is a target route plus the ordered
parameters the transition carries forward. -/
structure Redirect where
  base : String
  params : List (String × String)
deriving DecidableEq

/-- The rendered location header of a redirect. -/
def Redirect.location (r : Redirect) : String :=
  r.base ++ "?" ++ joinAmp (r.params.map (fun p => p.fst ++ "=" ++ urlencode p.snd))

/-- Modelled from the spec: the group-leave view — feature gate, resolve
the group named by the group_leave parameter (an unresolvable pubid is a
not-found response), delegate the membership removal, then redirect to the
global search URL carrying forward only the posted q parameter. -/
def group_leave (req : Request) (env : Env) : Except Err Redirect × List Effect :=
  if req.featureSearchPage = false then (Except.error Err.notFound, [])
  else
    match lookupParam req.params "group_leave" with
    | none => (Except.error Err.internal, [])
    | some pid =>
      match env.lookupGroup pid with
      | none => (Except.error Err.notFound, [])
      | some g =>
        (Except.ok
          { base := "http://example.com/search"
          , params :=
              match lookupParam req.post "q" with
              | some qv => [("q", qv)]
              | none => [] },
         [Effect.memberLeave g.pubid req.authenticatedUser])

/-- Modelled from the spec: the more-info transition — redirect back to the
group-scoped search GET URL carrying forward the posted q and the
more_info flag, dropping every other POST field. -/
def group_search_more_info (req : Request) : Except Err Redirect × List Effect :=
  match req.matchdictPubid with
  | none => (Except.error Err.internal, [])
  | some pid =>
    (Except.ok
      { base := groupSearchUrl pid
      , params :=
          (match lookupParam req.post "q" with
           | some qv => [("q", qv)]
           | none => []) ++ [("more_info", "")] },
     [])

/-- Modelled from the spec: the back transition — redirect to the
group-scoped search GET URL keeping only the posted q. -/
def group_search_back (req : Request) : Except Err Redirect × List Effect :=
  match req.matchdictPubid with
  | none => (Except.error Err.internal, [])
  | some pid =>
    (Except.ok
      { base := groupSearchUrl pid
      , params :=
          match lookupParam req.post "q" with
          | some qv => [("q", qv)]
          | none => [] },
     [])

/-- Modelled from the spec: the facet-toggle view — feature gate, extract
the account identifier from the toggle_user_facet parameter, toggle the
user facet for its local-part username in the q parameter, and redirect to
the group-scoped search URL for the pubid of the request. -/
def toggle_user_facet (req : Request) : Except Err Redirect × List Effect :=
  if req.featureSearchPage = false then (Except.error Err.notFound, [])
  else
    match lookupParam req.params "toggle_user_facet", req.matchdictPubid with
    | some userid, some pid =>
      let q := (lookupParam req.params "q").getD ""
      (Except.ok
        { base := groupSearchUrl pid
        , params := [("q", toggle q "user" (username userid))] },
       [])
    | _, _ => (Except.error Err.internal, [])

/-- A query string or facet value free of double-quote characters; the
quoting normalization of the serializer is injective on such inputs. -/
abbrev noQuote (s : String) : Prop := '"' ∉ s.toList

/-- Scan the characters of a candidate token: fails (none) on whitespace
outside quotes, otherwise returns the final in-quote state.  A token that
scans from false to false is consumed whole by the tokenizer. -/
def scanTok : List Char → Bool → Option Bool
  | [], inQ => some inQ
  | c :: rest, inQ =>
    if c.isWhitespace && !inQ then none
    else scanTok rest (if c = '"' then !inQ else inQ)

/-- A self-contained token: nonempty, and scanning it from outside a quote
ends outside a quote without hitting unquoted whitespace. -/
def goodTok (t : List Char) : Prop := t ≠ [] ∧ scanTok t false = some false

/-- Sample group used by concrete witnesses. -/
def gSample : Group :=
  { pubid := "abc123"
  , name := "Sample Group"
  , description := "a sample group"
  , creator := "acct:carol@example.org"
  , members := ["acct:member@example.org"]
  , createdMonth := 10
  , createdYear := 2016 }

/-- Sample collaborator environment used by concrete witnesses: one known
group and a canned search result. -/
def envSample : Env :=
  { lookupGroup := fun p => if p = "abc123" then some gSample else none
  , hasPermission := fun a g => a = "admin" && g.pubid = "abc123"
  , executeSearch := fun _ _ =>
      { total := 3
      , aggregations :=
          { users := some ["acct:test_user_1@hypothes.is"], other := [] } } }

/-- Collaborator environment with no resolvable groups, used by concrete
witnesses. -/
def envNone : Env :=
  { lookupGroup := fun _ => none
  , hasPermission := fun _ _ => false
  , executeSearch := fun _ _ =>
      { total := 0, aggregations := { users := none, other := [] } } }

/-- Base sample request used by concrete witnesses. -/
def reqBase : Request :=
  { featureSearchPage := true
  , params := []
  , post := []
  , matchdictPubid := some "abc123"
  , authenticatedUser := some "acct:member@example.org" }

theorem toList_mk (l : List Char) : (String.mk l).toList = l := rfl

theorem stripLead_some (p : List Char) :
    ∀ t r, stripLead p t = some r ↔ t = p ++ r := by
  induction p with
  | nil =>
    intro t r
    simp [stripLead]
  | cons x xs ih =>
    intro t r
    cases t with
    | nil => simp [stripLead]
    | cons c cs =>
      by_cases hc : c = x
      · subst hc
        simp [stripLead, ih]
      · simp [stripLead, hc, Ne.symm hc]

theorem scanTok_append (a : List Char) :
    ∀ b inQ, scanTok (a ++ b) inQ = (scanTok a inQ).bind (fun q => scanTok b q) := by
  induction a with
  | nil => intro b inQ; simp [scanTok]
  | cons c cs ih =>
    intro b inQ
    by_cases hc : (c.isWhitespace && !inQ) = true
    · simp [scanTok, hc]
    · simp [scanTok, hc, ih]

theorem scanTok_plain (t : List Char)
    (h : ∀ c ∈ t, ¬ c.isWhitespace ∧ c ≠ '"') :
    ∀ inQ, scanTok t inQ = some inQ := by
  induction t with
  | nil => intro inQ; rfl
  | cons c cs ih =>
    intro inQ
    have hc := h c (by simp)
    have hrest : ∀ c ∈ cs, ¬ c.isWhitespace ∧ c ≠ '"' := fun x hx => h x (by simp [hx])
    have hw : (c.isWhitespace && !inQ) = false := by
      cases hws : c.isWhitespace
      · simp
      · exact absurd (by simp [hws]) hc.1
    simp [scanTok, hw, hc.2, ih hrest]

theorem scanTok_quoted (v : List Char) (h : '"' ∉ v) :
    scanTok v true = some true := by
  induction v with
  | nil => rfl
  | cons c cs ih =>
    have hc : c ≠ '"' := fun hq => h (by simp [hq])
    have hrest : '"' ∉ cs := fun hq => h (by simp [hq])
    simp [scanTok, hc, ih hrest]

theorem tokenizeAux_append (t : List Char) :
    ∀ inQ inQ2, scanTok t inQ = some inQ2 →
      ∀ rest cur, tokenizeAux (t ++ rest) inQ cur = tokenizeAux rest inQ2 (t.reverse ++ cur) := by
  induction t with
  | nil =>
    intro inQ inQ2 h rest cur
    simp [scanTok] at h
    subst h
    simp
  | cons c cs ih =>
    intro inQ inQ2 h rest cur
    by_cases hc : (c.isWhitespace && !inQ) = true
    · simp only [scanTok, if_pos hc] at h
      exact absurd h (by simp)
    · simp only [scanTok, if_neg hc] at h
      rw [List.cons_append]
      simp only [tokenizeAux, if_neg hc]
      rw [ih _ _ h rest (c :: cur)]
      simp

theorem tokenize_single (t : List Char) (h : goodTok t) : tokenize t = [t] := by
  have h2 := tokenizeAux_append t false false h.2 [] []
  rw [List.append_nil] at h2
  unfold tokenize
  rw [h2]
  simp [tokenizeAux, List.reverse_eq_nil_iff, h.1]

theorem tokenize_cons (t : List Char) (h : goodTok t) (rest : List Char) :
    tokenize (t ++ ' ' :: rest) = t :: tokenize rest := by
  have h2 := tokenizeAux_append t false false h.2 (' ' :: rest) []
  rw [List.append_nil] at h2
  unfold tokenize
  rw [h2]
  have hne : t.reverse ≠ [] := by simp [List.reverse_eq_nil_iff, h.1]
  simp only [tokenizeAux]
  rw [if_pos (by decide), if_neg hne]
  simp

theorem tokenize_join (toks : List (List Char)) (h : ∀ t ∈ toks, goodTok t) :
    tokenize (joinSpace toks) = toks := by
  induction toks with
  | nil => rfl
  | cons t ts ih =>
    cases ts with
    | nil => simpa [joinSpace] using tokenize_single t (h t (by simp))
    | cons u us =>
      have hrest : ∀ x ∈ u :: us, goodTok x := fun x hx => h x (by simp [hx])
      simp only [joinSpace]
      rw [tokenize_cons t (h t (by simp)) _, ih hrest]

theorem tokenizeAux_plain (s : List Char) :
    ∀ cur, (∀ c ∈ s, c ≠ '"') → (∀ c ∈ cur, ¬ c.isWhitespace ∧ c ≠ '"') →
      ∀ t ∈ tokenizeAux s false cur, t ≠ [] ∧ ∀ c ∈ t, ¬ c.isWhitespace ∧ c ≠ '"' := by
  induction s with
  | nil =>
    intro cur _ hcur t ht
    by_cases hc : cur = []
    · simp [tokenizeAux, hc] at ht
    · simp [tokenizeAux, hc] at ht
      subst ht
      refine ⟨by simp [List.reverse_eq_nil_iff, hc], ?_⟩
      intro c hcmem
      exact hcur c (by simpa using hcmem)
  | cons c cs ih =>
    intro cur hs hcur t ht
    have hcq : c ≠ '"' := hs c (by simp)
    have hcs : ∀ x ∈ cs, x ≠ '"' := fun x hx => hs x (by simp [hx])
    by_cases hw : c.isWhitespace
    · simp only [tokenizeAux, hw, Bool.true_and, Bool.not_false, if_pos rfl] at ht
      by_cases hc : cur = []
      · rw [if_pos hc] at ht
        exact ih [] hcs (by simp) t ht
      · rw [if_neg hc] at ht
        rcases List.mem_cons.mp ht with h1 | h2
        · subst h1
          refine ⟨by simp [List.reverse_eq_nil_iff, hc], ?_⟩
          intro x hx
          exact hcur x (by simpa using hx)
        · exact ih [] hcs (by simp) t h2
    · have hcond : (c.isWhitespace && !false) = false := by simp [hw]
      simp only [tokenizeAux, hcond, Bool.false_eq_true, if_false, hcq, if_neg hcq] at ht
      refine ih (c :: cur) hcs ?_ t ht
      intro x hx
      rcases List.mem_cons.mp hx with h1 | h2
      · subst h1; exact ⟨hw, hcq⟩
      · exact hcur x h2

theorem stripQuotes_no_quote (v : List Char) (h : '"' ∉ v) : stripQuotes v = v := by
  cases v with
  | nil => rfl
  | cons c rest =>
    have hc : c ≠ '"' := fun hq => h (by simp [hq])
    simp [stripQuotes, hc]

theorem stripQuotes_quoted (v : List Char) :
    stripQuotes ('"' :: v ++ ['"']) = v := by
  show (if ('"' : Char) = '"' ∧ (v ++ ['"']).getLast? = some '"'
        then (v ++ ['"']).dropLast else '"' :: (v ++ ['"'])) = v
  rw [if_pos ⟨rfl, List.getLast?_concat v⟩]
  exact List.dropLast_concat ..

theorem serializeValue_plain (v : List Char) (h : ∀ c ∈ v, ¬ c.isWhitespace) :
    serializeValue v = v := by
  unfold serializeValue
  rw [if_neg]
  simp only [List.any_eq_true, not_exists]
  intro c hc
  exact h c hc.1 hc.2

theorem serializeValue_ws (v : List Char) (h : v.any Char.isWhitespace = true) :
    serializeValue v = '"' :: v ++ ['"'] := by
  unfold serializeValue
  rw [if_pos h]

theorem findFacet_eq (t : List Char) :
    findFacet knownKeys t =
      match stripLead (userKey ++ [':']) t with
      | some v => some (userKey, v)
      | none => none := by
  simp only [knownKeys, findFacet]

theorem serializeTerm_parseToken (t : List Char) (_hne : t ≠ [])
    (hp : ∀ c ∈ t, ¬ c.isWhitespace ∧ c ≠ '"') :
    serializeTerm (parseToken t) = t := by
  unfold parseToken
  rw [findFacet_eq]
  cases hsl : stripLead (userKey ++ [':']) t with
  | none => rfl
  | some v =>
    have ht : t = (userKey ++ [':']) ++ v := (stripLead_some _ _ _).mp hsl
    have hvp : ∀ c ∈ v, ¬ c.isWhitespace ∧ c ≠ '"' := by
      intro c hc
      exact hp c (by rw [ht]; simp [hc])
    have hq : '"' ∉ v := fun hc => (hvp '"' hc).2 rfl
    simp only [serializeTerm]
    rw [stripQuotes_no_quote v hq, serializeValue_plain v (fun c hc => (hvp c hc).1), ht]
    simp

theorem serializeTerm_facet_append (v : List Char) :
    serializeTerm (Term.facet userKey v) = (userKey ++ [':']) ++ serializeValue v := by
  simp [serializeTerm]

theorem parseToken_facet (k v : List Char) (hk : k ∈ knownKeys) (hv : '"' ∉ v) :
    parseToken (serializeTerm (Term.facet k v)) = Term.facet k v := by
  have hku : k = userKey := by simpa [knownKeys] using hk
  subst hku
  have hsl : stripLead (userKey ++ [':']) ((userKey ++ [':']) ++ serializeValue v) =
      some (serializeValue v) := (stripLead_some _ _ _).mpr rfl
  have hpt : parseToken (serializeTerm (Term.facet userKey v)) =
      Term.facet userKey (stripQuotes (serializeValue v)) := by
    unfold parseToken
    rw [findFacet_eq, serializeTerm_facet_append, hsl]
  rw [hpt]
  by_cases hw : v.any Char.isWhitespace = true
  · rw [serializeValue_ws v hw, stripQuotes_quoted]
  · have hnw : ∀ c ∈ v, ¬ c.isWhitespace := fun c hc hcw =>
      hw (List.any_eq_true.mpr ⟨c, hc, hcw⟩)
    rw [serializeValue_plain v hnw, stripQuotes_no_quote v hv]

theorem goodTok_facet (k v : List Char) (hk : k ∈ knownKeys) (hv : '"' ∉ v) :
    goodTok (serializeTerm (Term.facet k v)) := by
  have hku : k = userKey := by simpa [knownKeys] using hk
  subst hku
  constructor
  · simp [serializeTerm, userKey]
  · rw [serializeTerm_facet_append, scanTok_append]
    have h1 : scanTok (userKey ++ [':']) false = some false := by decide
    rw [h1]
    simp only [Option.some_bind]
    by_cases hw : v.any Char.isWhitespace = true
    · rw [serializeValue_ws v hw]
      have h2 : ('"' :: v ++ ['"'] : List Char) = ['"'] ++ (v ++ ['"']) := by simp
      rw [h2, scanTok_append]
      have h3 : scanTok ['"'] false = some true := by decide
      rw [h3]
      simp only [Option.some_bind]
      rw [scanTok_append, scanTok_quoted v hv]
      simp only [Option.some_bind]
      decide
    · have hnw : ∀ c ∈ v, ¬ c.isWhitespace := fun c hc hcw =>
        hw (List.any_eq_true.mpr ⟨c, hc, hcw⟩)
      rw [serializeValue_plain v hnw]
      exact scanTok_plain v (fun c hc => ⟨hnw c hc, fun hq => hv (hq ▸ hc)⟩) false

theorem goodTok_of_plain (t : List Char) (hne : t ≠ [])
    (hp : ∀ c ∈ t, ¬ c.isWhitespace ∧ c ≠ '"') : goodTok t :=
  ⟨hne, scanTok_plain t hp false⟩

theorem removeFirst_filter (q : List Term) (k v : List Char) :
    (removeFirst q k v).filter (fun t => t ≠ Term.facet k v) =
      q.filter (fun t => t ≠ Term.facet k v) := by
  induction q with
  | nil => rfl
  | cons t rest ih =>
    by_cases ht : t = Term.facet k v
    · subst ht
      have h1 : removeFirst (Term.facet k v :: rest) k v = rest := by
        simp [removeFirst]
      rw [h1, List.filter_cons_of_neg (by simp)]
    · simp only [removeFirst, if_neg ht]
      rw [List.filter_cons_of_pos (by simp [ht]), List.filter_cons_of_pos (by simp [ht]), ih]

theorem removeFirst_append_self (q : List Term) (k v : List Char)
    (h : Term.facet k v ∉ q) :
    removeFirst (q ++ [Term.facet k v]) k v = q := by
  induction q with
  | nil => simp [removeFirst]
  | cons t rest ih =>
    have ht : t ≠ Term.facet k v := fun he => h (by simp [he])
    have hrest : Term.facet k v ∉ rest := fun he => h (by simp [he])
    simp [removeFirst, ht, ih hrest]

theorem removeFirst_decomp (q : List Term) (k v : List Char)
    (h : Term.facet k v ∈ q) :
    ∃ pre post, q = pre ++ Term.facet k v :: post ∧ Term.facet k v ∉ pre ∧
      removeFirst q k v = pre ++ post := by
  induction q with
  | nil => simp at h
  | cons t rest ih =>
    by_cases ht : t = Term.facet k v
    · subst ht
      exact ⟨[], rest, by simp [removeFirst]⟩
    · have hrest : Term.facet k v ∈ rest := by
        rcases List.mem_cons.mp h with h1 | h2
        · exact absurd h1.symm ht
        · exact h2
      obtain ⟨pre, post, he, hnp, hrm⟩ := ih hrest
      refine ⟨t :: pre, post, by simp [he], ?_, ?_⟩
      · intro hmem
        rcases List.mem_cons.mp hmem with h1 | h2
        · exact ht h1.symm
        · exact hnp h2
      · simp only [removeFirst, if_neg ht]
        rw [hrm]
        simp

theorem toggleTerms_not_mem (q : List Term) (k v : List Char)
    (h : Term.facet k v ∉ q) :
    toggleTerms q k v = q ++ [Term.facet k v] := by
  simp [toggleTerms, h]

theorem toggleTerms_mem (q : List Term) (k v : List Char)
    (h : Term.facet k v ∈ q) :
    toggleTerms q k v = removeFirst q k v := by
  simp [toggleTerms, h]

theorem toggleTerms_filter (q : List Term) (k v : List Char) :
    (toggleTerms q k v).filter (fun t => t ≠ Term.facet k v) =
      q.filter (fun t => t ≠ Term.facet k v) := by
  by_cases h : Term.facet k v ∈ q
  · rw [toggleTerms_mem q k v h, removeFirst_filter]
  · rw [toggleTerms_not_mem q k v h, List.filter_append]
    simp

theorem tokenize_props (s : List Char) (hs : ∀ c ∈ s, c ≠ '"') :
    ∀ t ∈ tokenize s, t ≠ [] ∧ ∀ c ∈ t, ¬ c.isWhitespace ∧ c ≠ '"' :=
  tokenizeAux_plain s [] hs (by simp)

theorem reparse_toggled (s k v : List Char)
    (hk : k ∈ knownKeys) (hs : ∀ c ∈ s, c ≠ '"') (hv : '"' ∉ v) :
    parseList (serializeTerms (parseList s ++ [Term.facet k v])) =
      parseList s ++ [Term.facet k v] := by
  have htoks := tokenize_props s hs
  have hmap : (tokenize s).map (fun t => serializeTerm (parseToken t)) = tokenize s := by
    have := List.map_congr_left
      (l := tokenize s) (f := fun t => serializeTerm (parseToken t)) (g := id)
      (fun t ht => serializeTerm_parseToken t (htoks t ht).1 (htoks t ht).2)
    simpa using this
  have hser : (parseList s ++ [Term.facet k v]).map serializeTerm =
      tokenize s ++ [serializeTerm (Term.facet k v)] := by
    rw [List.map_append]
    congr 1
    rw [parseList, List.map_map]
    have hcomp : (serializeTerm ∘ parseToken) = fun t => serializeTerm (parseToken t) := rfl
    rw [hcomp, hmap]
  have hgood : ∀ t ∈ tokenize s ++ [serializeTerm (Term.facet k v)], goodTok t := by
    intro t ht
    rcases List.mem_append.mp ht with h1 | h2
    · exact goodTok_of_plain t (htoks t h1).1 (htoks t h1).2
    · rw [List.mem_singleton.mp h2]
      exact goodTok_facet k v hk hv
  unfold serializeTerms
  rw [hser]
  unfold parseList
  rw [tokenize_join _ hgood, List.map_append, List.map_cons, List.map_nil,
      parseToken_facet k v hk hv]

theorem toggle_eq (text key value : String) :
    toggle text key value =
      serialize (toggleTerms (parse text) key.toList value.toList) := rfl

/-- C1 counterexample: double toggling is not idempotent in general — on
the text "user:fred foo" the facet is removed by the first toggle and then
re-appended at the end by the second, so the canonical serialization of
the original text is not restored. -/
theorem C1_counterexample :
    toggle (toggle "user:fred foo" "user" "fred") "user" "fred" ≠
      serialize (parse "user:fred foo") := by decide

/-- C1 (amended): toggling twice with the same key and value restores the
canonical serialized form of the original text whenever the key is in the
known facet vocabulary, the text and the value are free of double-quote
characters, and the facet is not already present in the parsed text (when
it is present, the second toggle re-appends it at the end rather than at
its original position); toggling never reorders unrelated terms; and in
particular toggling user/fred on "foo bar" appends it, giving
"foo bar user:fred", and toggling that again restores "foo bar". -/
theorem C1_toggle_idempotence (text key value : String)
    (hk : key.toList ∈ knownKeys) (ht : noQuote text) (hv : noQuote value)
    (habs : Term.facet key.toList value.toList ∉ parse text) :
    toggle (toggle text key value) key value = serialize (parse text) ∧
    ((toggleTerms (parse text) key.toList value.toList).filter
        (fun t => t ≠ Term.facet key.toList value.toList) =
      (parse text).filter (fun t => t ≠ Term.facet key.toList value.toList)) ∧
    toggle "foo bar" "user" "fred" = "foo bar user:fred" ∧
    toggle "foo bar user:fred" "user" "fred" = "foo bar" := by
  refine ⟨?_, toggleTerms_filter _ _ _, by decide, by decide⟩
  have hs : ∀ c ∈ text.toList, c ≠ '"' := fun c hc hq => ht (hq ▸ hc)
  have hv' : '"' ∉ value.toList := hv
  have h1 : toggle text key value =
      serialize (parse text ++ [Term.facet key.toList value.toList]) := by
    rw [toggle_eq, toggleTerms_not_mem _ _ _ habs]
  have h2 : parse (toggle text key value) =
      parse text ++ [Term.facet key.toList value.toList] := by
    rw [h1]
    show parseList (serializeTerms (parse text ++ [Term.facet key.toList value.toList])) =
      parse text ++ [Term.facet key.toList value.toList]
    exact reparse_toggled text.toList key.toList value.toList hk hs hv'
  rw [toggle_eq (toggle text key value) key value, h2,
      toggleTerms_mem _ _ _ (by simp), removeFirst_append_self _ _ _ habs]

/-- C1 witness: the amended idempotence theorem applied at the concrete
input text "foo bar" with key user and value fred. -/
theorem C1_witness :
    toggle (toggle "foo bar" "user" "fred") "user" "fred" = serialize (parse "foo bar") :=
  (C1_toggle_idempotence "foo bar" "user" "fred"
    (by decide) (by decide) (by decide) (by decide)).1

/-- C2: if a facet with exactly matching key and value (compared on the
unquoted form) is present in the parsed query, toggling removes exactly
that single first-matching term and leaves every other term untouched and
in order; if no such facet is present, it is appended as a new trailing
term; concretely, toggling user/fred on the text consisting of the quoted
facet followed by "foo bar" yields "foo bar", and toggling it on the
quoted facet alone yields the empty string. -/
theorem C2_toggle_add_remove (text key value : String) :
    (Term.facet key.toList value.toList ∈ parse text →
      ∃ pre post,
        parse text = pre ++ Term.facet key.toList value.toList :: post ∧
        Term.facet key.toList value.toList ∉ pre ∧
        toggle text key value = serialize (pre ++ post)) ∧
    (Term.facet key.toList value.toList ∉ parse text →
      toggle text key value =
        serialize (parse text ++ [Term.facet key.toList value.toList])) ∧
    toggle "user:\"fred\" foo bar" "user" "fred" = "foo bar" ∧
    toggle "user:\"fred\"" "user" "fred" = "" := by
  refine ⟨?_, ?_, by decide, by decide⟩
  · intro hmem
    obtain ⟨pre, post, he, hnp, hrm⟩ :=
      removeFirst_decomp (parse text) key.toList value.toList hmem
    refine ⟨pre, post, he, hnp, ?_⟩
    rw [toggle_eq, toggleTerms_mem _ _ _ hmem, hrm]
  · intro habs
    rw [toggle_eq, toggleTerms_not_mem _ _ _ habs]

/-- C2 witness: the add/remove theorem applied at concrete inputs — the
append case on "foo" and the quoted-removal case giving the empty string. -/
theorem C2_witness :
    toggle "foo" "user" "fred" =
      serialize (parse "foo" ++ [Term.facet "user".toList "fred".toList]) ∧
    toggle "user:\"fred\"" "user" "fred" = "" :=
  ⟨(C2_toggle_add_remove "foo" "user" "fred").2.1 (by decide),
   (C2_toggle_add_remove "user:\"fred\"" "user" "fred").2.2.2⟩

theorem search_eq_of_flag (req : Request) (env : Env)
    (hflag : req.featureSearchPage = true) :
    search req env =
      (Except.ok
        { aggregations := reshapeAggs
            (env.executeSearch (parse ((lookupParam req.params "q").getD ""))
              (resolvePageSize (lookupParam req.params "page_size"))).aggregations
        , pageMeta := paginate
            (env.executeSearch (parse ((lookupParam req.params "q").getD ""))
              (resolvePageSize (lookupParam req.params "page_size"))).total
            (resolvePageSize (lookupParam req.params "page_size"))
        , moreInfo := false
        , group := none
        , groupEditUrl := none },
       [Effect.searchExecuted (resolvePageSize (lookupParam req.params "page_size"))]) := by
  simp [search, hflag]

theorem takeWhile_append_stop (p : Char → Bool) (l r : List Char) (a : Char)
    (hl : ∀ c ∈ l, p c = true) (ha : p a = false) :
    (l ++ a :: r).takeWhile p = l := by
  induction l with
  | nil => simp [List.takeWhile_cons, ha]
  | cons c cs ih =>
    have hc : p c = true := hl c (by simp)
    simp [List.takeWhile_cons, hc, ih (fun x hx => hl x (by simp [hx]))]

theorem username_acct (nm dm : String) (hnm : '@' ∉ nm.toList) :
    username ("acct:" ++ nm ++ "@" ++ dm) = nm := by
  unfold username localPart
  have hdata : ("acct:" ++ nm ++ "@" ++ dm).toList
      = "acct:".toList ++ (nm.toList ++ '@' :: dm.toList) := by
    simp
  rw [hdata]
  have h5 : ("acct:".toList : List Char).length = 5 := rfl
  rw [← h5, List.drop_left]
  rw [takeWhile_append_stop _ nm.toList dm.toList '@'
    (fun c hc => by
      simp only [decide_eq_true_eq]
      exact fun h => hnm (h ▸ hc))
    (by simp)]
  simp

/-- C3: page-size resolution never raises — a raw parameter that parses as
a positive integer is used for both search execution and pagination (raw
"100" gives 100); parse failure, a non-positive value such as "-5", or an
absent parameter silently yields the default constant. -/
theorem C3_page_size_resolution (req : Request) (env : Env) (s : String) (n : Int)
    (hflag : req.featureSearchPage = true) :
    (parseInt s = some n → 0 < n → resolvePageSize (some s) = n.toNat) ∧
    (parseInt s = some n → n ≤ 0 → resolvePageSize (some s) = PAGE_SIZE) ∧
    (parseInt s = none → resolvePageSize (some s) = PAGE_SIZE) ∧
    resolvePageSize none = PAGE_SIZE ∧
    resolvePageSize (some "100") = 100 ∧
    resolvePageSize (some "foobar") = PAGE_SIZE ∧
    resolvePageSize (some "-5") = PAGE_SIZE ∧
    (search req env).snd =
      [Effect.searchExecuted (resolvePageSize (lookupParam req.params "page_size"))] ∧
    ∀ resp, (search req env).fst = Except.ok resp →
      resp.pageMeta.pageSize = resolvePageSize (lookupParam req.params "page_size") := by
  refine ⟨?_, ?_, ?_, rfl, by decide, by decide, by decide, ?_, ?_⟩
  · intro hp hpos
    simp [resolvePageSize, hp, hpos]
  · intro hp hnp
    simp [resolvePageSize, hp, not_lt.mpr hnp]
  · intro hp
    simp [resolvePageSize, hp]
  · rw [search_eq_of_flag req env hflag]
  · intro resp hresp
    rw [search_eq_of_flag req env hflag] at hresp
    simp only [Except.ok.injEq] at hresp
    rw [← hresp]
    rfl

/-- C3 witness: the page-size theorem applied at a request carrying a raw
page-size of "100" — the positive-parse case and the parse-failure case. -/
theorem C3_witness :
    resolvePageSize (some "100") = (100 : Int).toNat ∧
    resolvePageSize (some "foobar") = PAGE_SIZE :=
  ⟨(C3_page_size_resolution reqBase envSample "100" 100 rfl).1 (by decide) (by decide),
   (C3_page_size_resolution reqBase envSample "100" 100 rfl).2.2.2.2.2.1⟩

/-- C4: the users aggregation, when present, is reshaped bucket by bucket
and in order — each output bucket carries the full account identifier as
userid and its local-part as username; when the users key is absent from
the input aggregations it is absent from the output as well, and every
other aggregation passes through untouched. -/
theorem C4_aggregation_reshape (req : Request) (env : Env) (a : AggsIn)
    (bs : List String) (nm dm : String)
    (hflag : req.featureSearchPage = true) (hnm : '@' ∉ nm.toList) :
    (a.users = some bs →
      (reshapeAggs a).users = some (bs.map (fun u => ⟨u, username u⟩))) ∧
    (a.users = none → (reshapeAggs a).users = none) ∧
    (reshapeAggs a).other = a.other ∧
    username ("acct:" ++ nm ++ "@" ++ dm) = nm ∧
    username "acct:test_user_1@hypothes.is" = "test_user_1" ∧
    ∀ resp, (search req env).fst = Except.ok resp →
      resp.aggregations =
        reshapeAggs (env.executeSearch (parse ((lookupParam req.params "q").getD ""))
          (resolvePageSize (lookupParam req.params "page_size"))).aggregations := by
  refine ⟨?_, ?_, rfl, username_acct nm dm hnm, by decide, ?_⟩
  · intro hu
    simp [reshapeAggs, hu]
  · intro hu
    simp [reshapeAggs, hu]
  · intro resp hresp
    rw [search_eq_of_flag req env hflag] at hresp
    simp only [Except.ok.injEq] at hresp
    rw [← hresp]

/-- C4 witness: the reshaping theorem applied at the sample environment,
whose canned result carries one users bucket. -/
theorem C4_witness :
    (reshapeAggs { users := some ["acct:test_user_1@hypothes.is"], other := [] }).users =
      some (["acct:test_user_1@hypothes.is"].map (fun u => ⟨u, username u⟩)) ∧
    username ("acct:" ++ "fred" ++ "@" ++ "hypothes.is") = "fred" :=
  ⟨(C4_aggregation_reshape reqBase envSample
      { users := some ["acct:test_user_1@hypothes.is"], other := [] }
      ["acct:test_user_1@hypothes.is"] "fred" "hypothes.is" rfl (by decide)).1 rfl,
   (C4_aggregation_reshape reqBase envSample
      { users := some ["acct:test_user_1@hypothes.is"], other := [] }
      ["acct:test_user_1@hypothes.is"] "fred" "hypothes.is" rfl (by decide)).2.2.2.1⟩

/-- C5: when the search-page feature flag is off, every operation — the
unscoped search, the group-scoped search, the group leave and the facet
toggle — fails with a not-found condition before any other work, emitting
no search execution and no membership mutation, regardless of requester
identity. -/
theorem C5_feature_gate (req : Request) (env : Env)
    (hflag : req.featureSearchPage = false) :
    search req env = (Except.error Err.notFound, []) ∧
    group_search req env = (Except.error Err.notFound, []) ∧
    group_leave req env = (Except.error Err.notFound, []) ∧
    toggle_user_facet req = (Except.error Err.notFound, []) := by
  refine ⟨?_, ?_, ?_, ?_⟩ <;>
    simp [search, group_search, group_leave, toggle_user_facet, hflag]

/-- C5 witness: the feature gate applied at a concrete flag-off request. -/
theorem C5_witness :
    search { reqBase with featureSearchPage := false } envSample =
      (Except.error Err.notFound, []) ∧
    toggle_user_facet { reqBase with featureSearchPage := false } =
      (Except.error Err.notFound, []) :=
  ⟨(C5_feature_gate { reqBase with featureSearchPage := false } envSample rfl).1,
   (C5_feature_gate { reqBase with featureSearchPage := false } envSample rfl).2.2.2⟩

/-- C6: group-scope silent fallback — whenever the pubid does not resolve,
or no user is authenticated, or the authenticated user is neither member
nor creator of the resolved group, the group-scoped search returns exactly
the unscoped search result, with no error and no group metadata. -/
theorem C6_group_scope_fallback (req : Request) (env : Env)
    (hflag : req.featureSearchPage = true)
    (hfb : ∀ g, req.matchdictPubid.bind env.lookupGroup = some g →
      ∀ u, req.authenticatedUser = some u → u ∉ g.members ∧ u ≠ g.creator) :
    group_search req env = search req env ∧
    ∀ resp, (group_search req env).fst = Except.ok resp →
      resp.group = none ∧ resp.groupEditUrl = none := by
  have hmain : group_search req env = search req env := by
    cases hb : req.matchdictPubid.bind env.lookupGroup with
    | none => simp [group_search, hflag, search_eq_of_flag req env hflag, hb]
    | some g =>
      cases hu : req.authenticatedUser with
      | none => simp [group_search, hflag, search_eq_of_flag req env hflag, hb, hu]
      | some u =>
        have hm := hfb g hb u hu
        simp [group_search, hflag, search_eq_of_flag req env hflag, hb, hu, hm.1, hm.2]
  refine ⟨hmain, ?_⟩
  intro resp hresp
  rw [hmain, search_eq_of_flag req env hflag] at hresp
  simp only [Except.ok.injEq] at hresp
  rw [← hresp]
  exact ⟨rfl, rfl⟩

/-- C6 witness: the fallback theorem applied at a request naming a pubid
that does not resolve in the sample environment. -/
theorem C6_witness :
    group_search { reqBase with matchdictPubid := some "nope" } envSample =
      search { reqBase with matchdictPubid := some "nope" } envSample :=
  (C6_group_scope_fallback { reqBase with matchdictPubid := some "nope" } envSample rfl
    (fun _ hg => Option.noConfusion hg)).1

/-- C7: scoped-response enrichment — for a member or creator the response
carries group metadata (pubid, name, description, created formatted as
month and year) and carries the group-edit URL exactly when the permission
predicate evaluated for action admin on the resolved group returns true,
the predicate being recorded as invoked exactly once. -/
theorem C7_scoped_enrichment (req : Request) (env : Env) (pid : String)
    (g : Group) (u : String)
    (hflag : req.featureSearchPage = true)
    (hpid : req.matchdictPubid = some pid)
    (hg : env.lookupGroup pid = some g)
    (hu : req.authenticatedUser = some u)
    (hmem : u ∈ g.members ∨ u = g.creator) :
    (∃ resp, (group_search req env).fst = Except.ok resp ∧
      resp.group = some
        { pubid := g.pubid, name := g.name, description := g.description
        , created := formatMonthYear g.createdMonth g.createdYear } ∧
      (env.hasPermission "admin" g = true →
        resp.groupEditUrl = some (groupEditUrl g.pubid)) ∧
      (env.hasPermission "admin" g = false → resp.groupEditUrl = none)) ∧
    (group_search req env).snd.count (Effect.permissionChecked "admin" g) = 1 := by
  have hb : req.matchdictPubid.bind env.lookupGroup = some g := by
    rw [hpid]
    simpa using hg
  have hgs : group_search req env =
      (Except.ok
        { aggregations := reshapeAggs
            (env.executeSearch (parse ((lookupParam req.params "q").getD ""))
              (resolvePageSize (lookupParam req.params "page_size"))).aggregations
        , pageMeta := paginate
            (env.executeSearch (parse ((lookupParam req.params "q").getD ""))
              (resolvePageSize (lookupParam req.params "page_size"))).total
            (resolvePageSize (lookupParam req.params "page_size"))
        , moreInfo := (lookupParam req.params "more_info").isSome
        , group := some
            { pubid := g.pubid, name := g.name, description := g.description
            , created := formatMonthYear g.createdMonth g.createdYear }
        , groupEditUrl :=
            if env.hasPermission "admin" g then some (groupEditUrl g.pubid) else none },
       [Effect.searchExecuted (resolvePageSize (lookupParam req.params "page_size")),
        Effect.permissionChecked "admin" g]) := by
    simp [group_search, hflag, search_eq_of_flag req env hflag, hb, hu, hmem]
  constructor
  · refine ⟨_, by rw [hgs], rfl, ?_, ?_⟩
    · intro hperm
      simp [hperm]
    · intro hperm
      simp [hperm]
  · rw [hgs]
    simp [List.count_cons]

/-- C7 witness: the enrichment theorem applied at the sample group with a
member user; the permission predicate is recorded exactly once. -/
theorem C7_witness :
    (group_search reqBase envSample).snd.count
      (Effect.permissionChecked "admin" gSample) = 1 :=
  (C7_scoped_enrichment reqBase envSample "abc123" gSample "acct:member@example.org"
    rfl rfl (by decide) rfl (by decide)).2

/-- C8: redirect parameter exclusion — the group-leave transition targets
the global search URL carrying only the posted q (spaces encoded as plus)
and never the group_leave control parameter; the back, more-info and
facet-toggle transitions carry exactly the parameter names q, q plus
more_info, and q respectively. -/
theorem C8_redirect_exclusion (req : Request) (env : Env) (pid qv : String) (g : Group)
    (hflag : req.featureSearchPage = true)
    (hgl : lookupParam req.params "group_leave" = some pid)
    (hg : env.lookupGroup pid = some g)
    (hq : lookupParam req.post "q" = some qv) :
    group_leave req env =
      (Except.ok { base := "http://example.com/search", params := [("q", qv)] },
       [Effect.memberLeave g.pubid req.authenticatedUser]) ∧
    (∀ r : Redirect, (group_leave req env).fst = Except.ok r →
      r.location = "http://example.com/search?q=" ++ urlencode qv ∧
      r.params.map Prod.fst = ["q"]) ∧
    (∀ r : Redirect, (group_search_back req).fst = Except.ok r →
      r.params.map Prod.fst = ["q"]) ∧
    (∀ r : Redirect, (group_search_more_info req).fst = Except.ok r →
      r.params.map Prod.fst = ["q", "more_info"]) ∧
    (∀ r : Redirect, (toggle_user_facet req).fst = Except.ok r →
      r.params.map Prod.fst = ["q"]) ∧
    urlencode "foo bar gar" = "foo+bar+gar" := by
  have hgl1 : group_leave req env =
      (Except.ok ({ base := "http://example.com/search", params := [("q", qv)] } : Redirect),
       [Effect.memberLeave g.pubid req.authenticatedUser]) := by
    simp [group_leave, hflag, hgl, hg, hq]
  have hloc : ({ base := "http://example.com/search", params := [("q", qv)] } : Redirect).location
      = "http://example.com/search?q=" ++ urlencode qv := by
    show "http://example.com/search" ++ "?" ++ ("q" ++ "=" ++ urlencode qv)
        = "http://example.com/search?q=" ++ urlencode qv
    rw [← String.append_assoc]
    rw [show (("http://example.com/search" ++ "?") ++ ("q" ++ "=") : String)
        = "http://example.com/search?q=" from rfl]
  refine ⟨hgl1, ?_, ?_, ?_, ?_, by decide⟩
  · intro r hr
    rw [hgl1] at hr
    simp only [Except.ok.injEq] at hr
    subst hr
    exact ⟨hloc, rfl⟩
  · intro r hr
    cases hpid : req.matchdictPubid with
    | none => simp [group_search_back, hpid] at hr
    | some pid2 =>
      simp only [group_search_back, hpid, hq, Except.ok.injEq] at hr
      subst hr
      rfl
  · intro r hr
    cases hpid : req.matchdictPubid with
    | none => simp [group_search_more_info, hpid] at hr
    | some pid2 =>
      simp only [group_search_more_info, hpid, hq, Except.ok.injEq] at hr
      subst hr
      rfl
  · intro r hr
    cases huf : lookupParam req.params "toggle_user_facet" with
    | none => simp [toggle_user_facet, hflag, huf] at hr
    | some uf =>
      cases hpid : req.matchdictPubid with
      | none => simp [toggle_user_facet, hflag, huf, hpid] at hr
      | some pid2 =>
        simp [toggle_user_facet, hflag, huf, hpid] at hr
        rw [← hr]
        rfl

/-- C8 witness: the exclusion theorem applied at a concrete group-leave
request posting q equal to "foo bar gar". -/
theorem C8_witness :
    group_leave { reqBase with
        params := [("group_leave", "abc123")], post := [("q", "foo bar gar")] } envSample =
      (Except.ok ({ base := "http://example.com/search",
                    params := [("q", "foo bar gar")] } : Redirect),
       [Effect.memberLeave "abc123" (some "acct:member@example.org")]) ∧
    urlencode "foo bar gar" = "foo+bar+gar" :=
  ⟨(C8_redirect_exclusion
      { reqBase with params := [("group_leave", "abc123")], post := [("q", "foo bar gar")] }
      envSample "abc123" "foo bar gar" gSample rfl (by decide) (by decide) (by decide)).1,
   (C8_redirect_exclusion
      { reqBase with params := [("group_leave", "abc123")], post := [("q", "foo bar gar")] }
      envSample "abc123" "foo bar gar" gSample rfl (by decide) (by decide) (by decide)).2.2.2.2.2⟩

/-- C9 counterexample: the operations of this core do not uniformly
degrade an unresolvable group pubid to the unscoped search — the
group-leave view surfaces it as a not-found error. -/
theorem C9_counterexample :
    (group_leave { reqBase with params := [("group_leave", "does_not_exist")] } envNone).fst =
      Except.error Err.notFound := by decide

/-- C9 (amended): an unresolvable group pubid (or a non-member user) in
the group-scoped search silently degrades to the unscoped search with no
error raised; the group-leave operation, by contrast, fails with a
not-found condition when the pubid named by its group_leave parameter does
not resolve. -/
theorem C9_group_not_found (req : Request) (env : Env) (pid : String)
    (g : Group) (u : String)
    (hflag : req.featureSearchPage = true) :
    (req.matchdictPubid.bind env.lookupGroup = none →
      group_search req env = search req env) ∧
    (req.matchdictPubid.bind env.lookupGroup = some g →
      req.authenticatedUser = some u → u ∉ g.members → u ≠ g.creator →
      group_search req env = search req env) ∧
    (lookupParam req.params "group_leave" = some pid → env.lookupGroup pid = none →
      group_leave req env = (Except.error Err.notFound, [])) := by
  refine ⟨?_, ?_, ?_⟩
  · intro hb
    simp [group_search, hflag, search_eq_of_flag req env hflag, hb]
  · intro hb hu hm1 hm2
    simp [group_search, hflag, search_eq_of_flag req env hflag, hb, hu, hm1, hm2]
  · intro hgl hg
    simp [group_leave, hflag, hgl, hg]

/-- C9 witness: the amended theorem applied at a request naming the pubid
does_not_exist (which resolves in neither environment), at a request whose
authenticated user is neither member nor creator of the resolved sample
group, and at a group-leave request for the unresolvable pubid. -/
theorem C9_witness :
    group_search { reqBase with matchdictPubid := some "does_not_exist" } envSample =
      search { reqBase with matchdictPubid := some "does_not_exist" } envSample ∧
    group_search { reqBase with authenticatedUser := some "acct:stranger@example.org" }
        envSample =
      search { reqBase with authenticatedUser := some "acct:stranger@example.org" }
        envSample ∧
    group_leave { reqBase with params := [("group_leave", "does_not_exist")] } envSample =
      (Except.error Err.notFound, []) :=
  ⟨(C9_group_not_found { reqBase with matchdictPubid := some "does_not_exist" }
      envSample "does_not_exist" gSample "acct:stranger@example.org" rfl).1 (by decide),
   (C9_group_not_found { reqBase with authenticatedUser := some "acct:stranger@example.org" }
      envSample "does_not_exist" gSample "acct:stranger@example.org" rfl).2.1
     (by decide) rfl (by decide) (by decide),
   (C9_group_not_found { reqBase with params := [("group_leave", "does_not_exist")] }
      envSample "does_not_exist" gSample "acct:stranger@example.org" rfl).2.2
     (by decide) (by decide)⟩

/-- C10: the facet-toggle view derives the toggled facet value from the
local-part of the acct account identifier — a toggle_user_facet parameter
of the shape acct:name@domain toggles the facet user:name in the q
parameter — and the redirect targets the group-scoped search URL for the
pubid of the request. -/
theorem C10_toggle_view (req : Request) (pid nm dm : String)
    (hflag : req.featureSearchPage = true)
    (hpid : req.matchdictPubid = some pid)
    (huf : lookupParam req.params "toggle_user_facet" = some ("acct:" ++ nm ++ "@" ++ dm))
    (hnm : '@' ∉ nm.toList) :
    toggle_user_facet req =
      (Except.ok
        { base := groupSearchUrl pid
        , params := [("q", toggle ((lookupParam req.params "q").getD "") "user" nm)] },
       []) ∧
    groupSearchUrl pid = "http://example.com/groups/" ++ pid ++ "/search" := by
  refine ⟨?_, rfl⟩
  simp [toggle_user_facet, hflag, huf, hpid, username_acct nm dm hnm]

/-- C10 witness: the toggle-view theorem applied at the account identifier
acct:fred@hypothes.is with an empty q, and the rendered location of the
resulting redirect. -/
theorem C10_witness :
    toggle_user_facet { reqBase with
        params := [("toggle_user_facet", "acct:fred@hypothes.is")] } =
      (Except.ok
        ({ base := groupSearchUrl "abc123"
         , params := [("q", toggle "" "user" "fred")] } : Redirect), []) ∧
    ({ base := groupSearchUrl "abc123"
     , params := [("q", toggle "" "user" "fred")] } : Redirect).location =
      "http://example.com/groups/abc123/search?q=user%3Afred" :=
  ⟨(C10_toggle_view { reqBase with params := [("toggle_user_facet", "acct:fred@hypothes.is")] }
      "abc123" "fred" "hypothes.is" rfl rfl (by decide) (by decide)).1,
   by decide⟩

end Activity
